import Mathlib

/-!
Shallow embedding of `mana_value_sim.py` (mtg-sim): card model, deck builder,
mulligan resolver, turn engine, and the aggregation step of the trial
orchestrator, together with theorems checking the repository's specification.

Conventions of the embedding:
- Python `int` values are `Int`; counters that are provably non-negative in the
  source (turn index, mulligan count, draw size) are `Nat`.
- `ValueError` raised while validating parameters is `SimError.config`;
  `ValueError` raised by a hand/deck-size consistency check is
  `SimError.internal`.
- `RNG.shuffle` is modelled as an explicit `shuffle : List Card → List Card`
  parameter; theorems that depend on the shuffle only being a reordering take a
  permutation hypothesis.
- Cards carry a unique uuid in the source, so `list.remove(card)` removes
  exactly the first element satisfying the predicate that selected `card`;
  this is `List.eraseP`.
-/

namespace MtgSim

/-- Card variants of `mana_value_sim.py`: the target card (its numeric fields
live in `Target`), a land with its `is_on_color` flag, and `other_card`. -/
inductive Card where
  | target : Card
  | land : Bool → Card
  | other : Card
deriving DecidableEq, Repr

/-- `card["card_type"] == "target_card"`. -/
def isTarget : Card → Bool
  | .target => true
  | _ => false

/-- `card["card_type"] == "land"`. -/
def isLand : Card → Bool
  | .land _ => true
  | _ => false

/-- `card["card_type"] == "land" and card["is_on_color"]`. -/
def isOnLand : Card → Bool
  | .land b => b
  | _ => false

/-- `card["card_type"] == "land" and not card["is_on_color"]`. -/
def isOffLand : Card → Bool
  | .land b => !b
  | _ => false

/-- `card["card_type"] == "other_card"`. -/
def isOther : Card → Bool
  | .other => true
  | _ => false

/-- `card.get("is_on_color", False)`: lands report their flag, any other card
reports `False` (used for the board counts in the turn loop). -/
def onColorFlag : Card → Bool
  | .land b => b
  | _ => false

/-- Error kinds: `config` for `ValueError`s raised validating parameters,
`internal` for the hand/deck size consistency checks, and `nonterm` standing
for the one spot where the source's trim loop would spin forever (see
`trimLoop`); no reachable state of the simulation produces `nonterm`. -/
inductive SimError where
  | config
  | internal
  | nonterm
deriving DecidableEq, Repr

/-- `DECK_SIZE = 40`. -/
def DECK_SIZE : Nat := 40

/-- `LAND_COUNT = 17`. -/
def LAND_COUNT : Nat := 17

/-- The numeric fields of the dict returned by `get_target_card`. -/
structure Target where
  mana_value : Int
  on_color_pips : Int
  off_color_pips : Int
  generic : Int
deriving DecidableEq, Repr

/-- `get_target_card` (lines 15-69): value validation then the card dict. -/
def get_target_card (mana_value on_color_pips off_color_pips generic : Int) :
    Except SimError Target :=
  if mana_value < 1 then .error .config
  else if on_color_pips < 1 then .error .config
  else if off_color_pips < 0 then .error .config
  else if generic < 0 then .error .config
  else if on_color_pips + off_color_pips + generic ≠ mana_value then .error .config
  else .ok ⟨mana_value, on_color_pips, off_color_pips, generic⟩

/-- `get_land_split` (lines 109-134). -/
def get_land_split (on_color_count : Int) : Except SimError (Int × Int) :=
  if on_color_count < 1 then .error .config
  else .ok (on_color_count, (LAND_COUNT : Int) - on_color_count)

/-- The deck list built by the three `for` loops of `get_deck` (lines 178-190):
on-color lands, then off-color lands, then `DECK_SIZE - LAND_COUNT - 1 = 22`
other cards.  A Python `range` over a negative count is empty, matching
`Int.toNat`. -/
def deckCards (onCount offCount : Nat) : List Card :=
  List.replicate onCount (Card.land true) ++ List.replicate offCount (Card.land false)
    ++ List.replicate (DECK_SIZE - LAND_COUNT - 1) Card.other

/-- `get_deck` (lines 137-200): feasibility checks, land split, deck build,
size check, shuffle.  The target card is not added to the deck. -/
def get_deck (t : Target) (on_color_land_count : Int)
    (shuffle : List Card → List Card) : Except SimError (List Card) :=
  if on_color_land_count < t.on_color_pips then .error .config
  else if (LAND_COUNT : Int) - on_color_land_count < t.off_color_pips then .error .config
  else
    match get_land_split on_color_land_count with
    | .error e => .error e
    | .ok (onc, offc) =>
      let deck := deckCards onc.toNat offc.toNat
      if deck.length ≠ DECK_SIZE - 1 then .error .internal
      else .ok (shuffle deck)

/-- `draw_n` (lines 203-239): validation, then split the deck at `n`. -/
def draw_n (deck : List Card) (n : Nat) : Except SimError (List Card × List Card) :=
  if n < 1 then .error .config
  else if n > deck.length then .error .config
  else .ok (deck.take n, deck.drop n)

/-- The mulligan `while` loop of `simulate` (lines 330-369).  One iteration:
recount the on-color and off-color lands in hand; at attempts 0 and 1 mulligan when the
hand has no on-color land, at attempt 2 when it has no land at all; at
attempt 3 (or when the condition fails) stop.  A mulligan removes the target
card, bottoms the rest of the hand, draws 6, and re-adds the target card. -/
def mullLoop (hand deck : List Card) (mulligan_count : Nat) :
    Except SimError (List Card × List Card × Nat) :=
  if (mulligan_count = 0 ∨ mulligan_count = 1) ∧ hand.countP isOnLand = 0 then
    match draw_n (deck ++ hand.eraseP isTarget) 6 with
    | .error e => .error e
    | .ok (drawn, deck2) => mullLoop (drawn ++ [Card.target]) deck2 (mulligan_count + 1)
  else if mulligan_count = 2 ∧ hand.countP isOnLand + hand.countP isOffLand = 0 then
    match draw_n (deck ++ hand.eraseP isTarget) 6 with
    | .error e => .error e
    | .ok (drawn, deck2) => mullLoop (drawn ++ [Card.target]) deck2 (mulligan_count + 1)
  else .ok (hand, deck, mulligan_count)
termination_by 4 - mulligan_count
decreasing_by
  · omega
  · omega

/-- The trim `while` loop of `simulate` (lines 373-410): move cards from the
hand to `to_return` until `mulligan_count` cards have been chosen, preferring
other cards, then off-color lands, then on-color lands.  When the hand holds
none of the three kinds and more cards are still owed, the source loops
forever; that (unreachable) situation is modelled as `SimError.nonterm`. -/
def trimLoop (hand to_return : List Card) (mulligan_count : Nat) :
    Except SimError (List Card × List Card) :=
  if mulligan_count = 0 then .ok (hand, to_return)
  else if to_return.length = mulligan_count then .ok (hand, to_return)
  else if h1 : hand.any isOther then
    match hand.find? isOther with
    | some c => trimLoop (hand.eraseP isOther) (to_return ++ [c]) mulligan_count
    | none => .ok (hand, to_return)
  else if h2 : hand.any isOffLand then
    match hand.find? isOffLand with
    | some c => trimLoop (hand.eraseP isOffLand) (to_return ++ [c]) mulligan_count
    | none => .ok (hand, to_return)
  else if h3 : hand.any isOnLand then
    match hand.find? isOnLand with
    | some c => trimLoop (hand.eraseP isOnLand) (to_return ++ [c]) mulligan_count
    | none => .ok (hand, to_return)
  else .error .nonterm
termination_by hand.length
decreasing_by
  · obtain ⟨x, hx, hpx⟩ := List.any_eq_true.mp h1
    have := List.length_eraseP_add_one hx hpx
    omega
  · obtain ⟨x, hx, hpx⟩ := List.any_eq_true.mp h2
    have := List.length_eraseP_add_one hx hpx
    omega
  · obtain ⟨x, hx, hpx⟩ := List.any_eq_true.mp h3
    have := List.length_eraseP_add_one hx hpx
    omega

/-- Mulligan Resolver: the mulligan loop followed by the trim step and
`deck.extend(to_return)` (lines 330-413 of `simulate`).  Returns the kept
hand, the final library, and the mulligan count. -/
def mulligan_resolve (hand deck : List Card) :
    Except SimError (List Card × List Card × Nat) :=
  match mullLoop hand deck 0 with
  | .error e => .error e
  | .ok (hand1, deck1, k) =>
    match trimLoop hand1 [] k with
    | .error e => .error e
    | .ok (hand2, to_return) => .ok (hand2, deck1 ++ to_return, k)

/-- `board.append(land); hand.remove(land)` for the first card of the hand
satisfying `p` (the `next(...)` generator expressions in lines 479-507). -/
def playFirst (p : Card → Bool) (hand board : List Card) : List Card × List Card :=
  match hand.find? p with
  | some land => (hand.eraseP p, board ++ [land])
  | none => (hand, board)

/-- The land-drop step of one turn (lines 450-511): play the first on-color
land while the board is short of on-color pips, else the first off-color land
while short of off-color pips, else any land; no land when the hand has none.
Returns the new `(hand, board)`. -/
def landDrop (t : Target) (hand board : List Card) : List Card × List Card :=
  if hand.any isLand then
    if hand.any isOnLand ∧ (board.countP onColorFlag : Int) < t.on_color_pips then
      playFirst isOnLand hand board
    else if hand.any isOffLand ∧
        (board.countP (fun c => !onColorFlag c) : Int) < t.off_color_pips then
      playFirst isOffLand hand board
    else if hand.any isLand then
      playFirst isLand hand board
    else (hand, board)
  else (hand, board)

/-- The cast check (lines 513-529), on the board counts recomputed after the
land drop: enough on-color, enough off-color, and enough total lands. -/
def castable (t : Target) (board : List Card) : Bool :=
  decide (t.on_color_pips ≤ (board.countP onColorFlag : Int) ∧
    t.off_color_pips ≤ (board.countP (fun c => !onColorFlag c) : Int) ∧
    t.mana_value ≤ (board.countP onColorFlag : Int) +
      (board.countP (fun c => !onColorFlag c) : Int))

/-- The game `while` loop of `simulate` from turn 2 on (lines 439-541): each
iteration draws one card (the loop breaks first when the library is empty),
performs the land drop, and checks castability.  Returns the post-land-drop
board of every executed turn, and the cast turn if one was reached. -/
def loopRun (t : Target) : List Card → List Card → List Card → Nat →
    List (List Card) × Option Nat
  | [], _, _, _ => ([], none)
  | c :: deck, hand, board, turn =>
    let s := landDrop t (hand ++ [c]) board
    if castable t s.2 then ([s.2], some turn)
    else
      let r := loopRun t deck s.1 s.2 (turn + 1)
      (s.2 :: r.1, r.2)

/-- Turn Engine (lines 436-541): turn 1 breaks immediately on an empty
library and otherwise plays without drawing; turns ≥ 2 are `loopRun`.
Returns the post-land-drop board of every executed turn and the cast turn. -/
def engineRun (t : Target) (deck hand : List Card) :
    List (List Card) × Option Nat :=
  match deck with
  | [] => ([], none)
  | _ :: _ =>
    let s := landDrop t hand []
    if castable t s.2 then ([s.2], some 1)
    else
      let r := loopRun t deck s.1 s.2 2
      (s.2 :: r.1, r.2)

/-- The dict returned by `simulate` (lines 531-550). -/
structure TrialResult where
  cast_turn : Option Nat
  mana_value : Int
  on_color_pips : Int
  off_color_pips : Int
  generic : Int
  mulligan_count : Nat
deriving DecidableEq, Repr

/-- `simulate` (lines 242-550): parameter validation, target card, deck,
opening hand of 6 plus the target card, mulligan resolution, the two size
consistency checks, then the turn loop. -/
def simulate (mana_value on_color_pips off_color_pips on_color_land_count : Int)
    (shuffle : List Card → List Card) : Except SimError TrialResult :=
  if mana_value < 1 then .error .config
  else if on_color_pips < 0 then .error .config
  else if off_color_pips < 0 then .error .config
  else if on_color_land_count < 1 then .error .config
  else if on_color_land_count > (LAND_COUNT : Int) then .error .config
  else
    let generic := mana_value - on_color_pips - off_color_pips
    if generic < 0 then .error .config
    else if generic + on_color_pips + off_color_pips ≠ mana_value then .error .config
    else
      match get_target_card mana_value on_color_pips off_color_pips generic with
      | .error e => .error e
      | .ok t =>
        match get_deck t on_color_land_count shuffle with
        | .error e => .error e
        | .ok deck0 =>
          match draw_n deck0 6 with
          | .error e => .error e
          | .ok (drawn, deck1) =>
            match mulligan_resolve (drawn ++ [Card.target]) deck1 with
            | .error e => .error e
            | .ok (hand2, deck2, k) =>
              if (hand2.length : Int) ≠ 7 - (k : Int) then .error .internal
              else if (deck2.length : Int) ≠ (DECK_SIZE : Int) - (hand2.length : Int) then
                .error .internal
              else
                let r := engineRun t deck2 hand2
                .ok ⟨r.2, t.mana_value, t.on_color_pips, t.off_color_pips, t.generic, k⟩

/-- Modelled from the spec and the documented pandas semantics used at lines
650-660: `Series.mean()` ignores missing values (`None`/NaN) and yields a
missing value when nothing remains. -/
def seriesMean (xs : List (Option ℚ)) : Option ℚ :=
  let vs := xs.filterMap id
  if vs.length = 0 then none else some (vs.sum / (vs.length : ℚ))

/-- The summary dict built by `run_simulations` (lines 650-663). -/
structure AggregateResult where
  mana_value : Int
  on_color_pips : Int
  off_color_pips : Int
  on_color_land_count : Int
  off_color_land_count : Int
  iterations : Nat
  average_cast_turn : Option ℚ
  average_mulligan_count : Option ℚ
deriving DecidableEq, Repr

/-- The reduction step of `run_simulations` (lines 642-663) applied to the
list of trial results that were not discarded: when at least one row exists,
build the summary with the two column means; otherwise return `None`. -/
def run_simulations_aggregate (mana_value on_color_pips off_color_pips on_color_land_count : Int)
    (num_simulations : Nat) (results : List TrialResult) : Option AggregateResult :=
  if 0 < results.length then
    some
      { mana_value := mana_value
        on_color_pips := on_color_pips
        off_color_pips := off_color_pips
        on_color_land_count := on_color_land_count
        off_color_land_count := (LAND_COUNT : Int) - on_color_land_count
        iterations := num_simulations
        average_cast_turn := seriesMean (results.map fun r => r.cast_turn.map fun n => (n : ℚ))
        average_mulligan_count :=
          seriesMean (results.map fun r => some ((r.mulligan_count : ℚ))) }
  else none

/-- One step of board growth: the board is unchanged or one land is appended. -/
def boardStep (b b' : List Card) : Prop :=
  b' = b ∨ ∃ c, isLand c = true ∧ b' = b ++ [c]

/-- A concrete opening hand used by the witnesses: six on-color lands and the
target card. -/
def hand0w : List Card := List.replicate 6 (Card.land true) ++ [Card.target]

/-- A concrete 33-card library used by the witnesses: the part of
`deckCards 17 0` left after the opening draw. -/
def deck0w : List Card := List.replicate 11 (Card.land true) ++ List.replicate 22 Card.other

/-- A concrete target card (cost 1, one on-color pip) used by the witnesses. -/
def t1w : Target := ⟨1, 1, 0, 0⟩

/-- A concrete list of trial results used by the C8 witness: one trial cast on
turn 3 with no mulligans, one exhausted the library after 2 mulligans. -/
def resultsw : List TrialResult := [⟨some 3, 1, 1, 0, 0, 0⟩, ⟨none, 1, 1, 0, 0, 2⟩]

/-- The aggregate produced from `resultsw`: the cast-turn mean uses only the
one trial that cast (turn 3), the mulligan mean uses both trials. -/
def aggw : AggregateResult := ⟨1, 1, 0, 17, 0, 2, some 3, some 1⟩

/-! ### Helper lemmas about list counting -/

theorem countP_eraseP_self (p : Card → Bool) (l : List Card) :
    (l.eraseP p).countP p = l.countP p - 1 := by
  induction l with
  | nil => simp
  | cons a l ih =>
    by_cases hpa : p a
    · simp [List.eraseP_cons, hpa, List.countP_cons]
    · simp [List.eraseP_cons, hpa, List.countP_cons, ih]

theorem countP_eraseP_disj {p q : Card → Bool} (hpq : ∀ c, p c = true → q c = false)
    (l : List Card) : (l.eraseP p).countP q = l.countP q := by
  induction l with
  | nil => simp
  | cons a l ih =>
    by_cases hpa : p a
    · simp [List.eraseP_cons, hpa, List.countP_cons, hpq a hpa]
    · simp [List.eraseP_cons, hpa, List.countP_cons, ih]

theorem length_eraseP_of_countP_pos {p : Card → Bool} {l : List Card}
    (h : 0 < l.countP p) : (l.eraseP p).length + 1 = l.length := by
  obtain ⟨x, hx, hpx⟩ := List.countP_pos_iff.mp h
  exact List.length_eraseP_add_one hx hpx

theorem countP_take_drop (p : Card → Bool) (l : List Card) (n : Nat) :
    (l.take n).countP p + (l.drop n).countP p = l.countP p := by
  rw [← List.countP_append, List.take_append_drop]

theorem countP_replicate (p : Card → Bool) (n : Nat) (a : Card) :
    (List.replicate n a).countP p = if p a then n else 0 := by
  induction n with
  | zero => simp
  | succ n ih => rw [List.replicate_succ, List.countP_cons, ih]; split <;> simp

/-! ### Mulligan Resolver invariants -/

theorem draw_n_ok {deck : List Card} {n : Nat} {dr rest : List Card}
    (H : draw_n deck n = .ok (dr, rest)) :
    1 ≤ n ∧ n ≤ deck.length ∧ dr = deck.take n ∧ rest = deck.drop n := by
  rw [draw_n] at H
  split at H
  · exact absurd H (by simp)
  · split at H
    · exact absurd H (by simp)
    · rename_i hn1 hn2
      refine ⟨by omega, by omega, ?_, ?_⟩ <;> simp_all

theorem mullLoop_inv {h d : List Card} {k' : Nat} (hand deck : List Card) (k : Nat)
    (H : mullLoop hand deck k = .ok (h, d, k')) :
    (k ≤ 3 → k' ≤ 3) ∧
    (hand.length = 7 → h.length = 7) ∧
    (hand.countP isTarget = 1 → deck.countP isTarget = 0 →
      h.countP isTarget = 1 ∧ d.countP isTarget = 0 ∧
        (hand.length = 7 → deck.length = 33 → d.length = 33)) := by
  induction hand, deck, k using mullLoop.induct with
  | case1 hand deck k hcond e heq =>
    rw [mullLoop, if_pos hcond, heq] at H
    simp at H
  | case2 hand deck k hcond drawn deck2 heq ih =>
    rw [mullLoop, if_pos hcond, heq] at H
    obtain ⟨-, hlen6, hdr, hdk⟩ := draw_n_ok heq
    have IH := ih H
    have hdrlen : drawn.length = 6 := by rw [hdr, List.length_take]; omega
    refine ⟨fun hk => IH.1 (by rcases hcond.1 with h0 | h0 <;> omega), ?_, ?_⟩
    · intro _
      exact IH.2.1 (by simp [hdrlen])
    · intro hT hD
      have hTe : (hand.eraseP isTarget).countP isTarget = 0 := by
        rw [countP_eraseP_self, hT]
      have hext : (deck ++ hand.eraseP isTarget).countP isTarget = 0 := by
        rw [List.countP_append, hD, hTe]
      have hdrT : drawn.countP isTarget = 0 := by
        rw [hdr]
        have := (List.take_sublist 6 (deck ++ hand.eraseP isTarget)).countP_le isTarget
        omega
      have hdkT : deck2.countP isTarget = 0 := by
        have := countP_take_drop isTarget (deck ++ hand.eraseP isTarget) 6
        rw [hdk]
        omega
      have hnewT : (drawn ++ [Card.target]).countP isTarget = 1 := by
        rw [List.countP_append, hdrT]
        simp [isTarget]
      obtain ⟨ih1, ih2, ih3⟩ := IH.2.2 hnewT hdkT
      refine ⟨ih1, ih2, fun h7 d33 => ih3 (by simp [hdrlen]) ?_⟩
      have hlenE : (hand.eraseP isTarget).length + 1 = hand.length :=
        length_eraseP_of_countP_pos (by omega)
      rw [hdk]
      simp
      omega
  | case3 hand deck k hcond1 hcond2 e heq =>
    rw [mullLoop, if_neg hcond1, if_pos hcond2, heq] at H
    simp at H
  | case4 hand deck k hcond1 hcond2 drawn deck2 heq ih =>
    rw [mullLoop, if_neg hcond1, if_pos hcond2, heq] at H
    obtain ⟨-, hlen6, hdr, hdk⟩ := draw_n_ok heq
    have IH := ih H
    have hdrlen : drawn.length = 6 := by rw [hdr, List.length_take]; omega
    refine ⟨fun hk => IH.1 (by omega), ?_, ?_⟩
    · intro _
      exact IH.2.1 (by simp [hdrlen])
    · intro hT hD
      have hTe : (hand.eraseP isTarget).countP isTarget = 0 := by
        rw [countP_eraseP_self, hT]
      have hext : (deck ++ hand.eraseP isTarget).countP isTarget = 0 := by
        rw [List.countP_append, hD, hTe]
      have hdrT : drawn.countP isTarget = 0 := by
        rw [hdr]
        have := (List.take_sublist 6 (deck ++ hand.eraseP isTarget)).countP_le isTarget
        omega
      have hdkT : deck2.countP isTarget = 0 := by
        have := countP_take_drop isTarget (deck ++ hand.eraseP isTarget) 6
        rw [hdk]
        omega
      have hnewT : (drawn ++ [Card.target]).countP isTarget = 1 := by
        rw [List.countP_append, hdrT]
        simp [isTarget]
      obtain ⟨ih1, ih2, ih3⟩ := IH.2.2 hnewT hdkT
      refine ⟨ih1, ih2, fun h7 d33 => ih3 (by simp [hdrlen]) ?_⟩
      have hlenE : (hand.eraseP isTarget).length + 1 = hand.length :=
        length_eraseP_of_countP_pos (by omega)
      rw [hdk]
      simp
      omega
  | case5 hand deck k hcond1 hcond2 =>
    rw [mullLoop, if_neg hcond1, if_neg hcond2] at H
    simp only [Except.ok.injEq, Prod.mk.injEq] at H
    obtain ⟨rfl, rfl, rfl⟩ := H
    exact ⟨fun hk => hk, fun hl => hl, fun hT hD => ⟨hT, hD, fun _ hd => hd⟩⟩

theorem not_isTarget_of_isOther {c : Card} (h : isOther c = true) : isTarget c = false := by
  cases c <;> simp_all [isOther, isTarget]

theorem not_isTarget_of_isOffLand {c : Card} (h : isOffLand c = true) : isTarget c = false := by
  cases c <;> simp_all [isOffLand, isTarget]

theorem not_isTarget_of_isOnLand {c : Card} (h : isOnLand c = true) : isTarget c = false := by
  cases c <;> simp_all [isOnLand, isTarget]

theorem trimLoop_inv {h2 ret : List Card} (hand toRet : List Card) (k : Nat)
    (H : trimLoop hand toRet k = .ok (h2, ret)) :
    h2.length + ret.length = hand.length + toRet.length ∧
    (ret.length = k ∨ (k = 0 ∧ ret = toRet)) ∧
    h2.countP isTarget = hand.countP isTarget ∧
    ret.countP isTarget = toRet.countP isTarget := by
  induction hand, toRet, k using trimLoop.induct with
  | case1 hand toRet =>
    rw [trimLoop] at H
    simp only [if_pos rfl, Except.ok.injEq, Prod.mk.injEq] at H
    obtain ⟨rfl, rfl⟩ := H
    exact ⟨rfl, Or.inr ⟨rfl, rfl⟩, rfl, rfl⟩
  | case2 hand toRet hlen0 =>
    rw [trimLoop, if_neg hlen0, if_pos rfl] at H
    simp only [Except.ok.injEq, Prod.mk.injEq] at H
    obtain ⟨rfl, rfl⟩ := H
    exact ⟨rfl, Or.inl rfl, rfl, rfl⟩
  | case3 hand toRet k hk0 hlen hAny c hfind ih =>
    rw [trimLoop, if_neg hk0, if_neg hlen, dif_pos hAny, hfind] at H
    have IH := ih H
    have hpc : isOther c = true := List.find?_some hfind
    have hlenE : (hand.eraseP isOther).length + 1 = hand.length := by
      obtain ⟨x, hx, hpx⟩ := List.any_eq_true.mp hAny
      exact List.length_eraseP_add_one hx hpx
    have hTe : (hand.eraseP isOther).countP isTarget = hand.countP isTarget :=
      countP_eraseP_disj (fun c h => not_isTarget_of_isOther h) hand
    obtain ⟨ihL, ihK, ihT, ihR⟩ := IH
    refine ⟨by simp at ihL ⊢; omega, ?_, by omega, ?_⟩
    · rcases ihK with h | h
      · exact Or.inl h
      · exact absurd h.1 hk0
    · rw [ihR, List.countP_append]
      simp [not_isTarget_of_isOther hpc]
  | case4 hand toRet k hk0 hlen hAny hfind =>
    obtain ⟨x, hx, hpx⟩ := List.any_eq_true.mp hAny
    have := List.find?_eq_none.mp hfind x hx
    simp_all
  | case5 hand toRet k hk0 hlen hAny1 hAny c hfind ih =>
    rw [trimLoop, if_neg hk0, if_neg hlen, dif_neg hAny1, dif_pos hAny, hfind] at H
    have IH := ih H
    have hpc : isOffLand c = true := List.find?_some hfind
    have hlenE : (hand.eraseP isOffLand).length + 1 = hand.length := by
      obtain ⟨x, hx, hpx⟩ := List.any_eq_true.mp hAny
      exact List.length_eraseP_add_one hx hpx
    have hTe : (hand.eraseP isOffLand).countP isTarget = hand.countP isTarget :=
      countP_eraseP_disj (fun c h => not_isTarget_of_isOffLand h) hand
    obtain ⟨ihL, ihK, ihT, ihR⟩ := IH
    refine ⟨by simp at ihL ⊢; omega, ?_, by omega, ?_⟩
    · rcases ihK with h | h
      · exact Or.inl h
      · exact absurd h.1 hk0
    · rw [ihR, List.countP_append]
      simp [not_isTarget_of_isOffLand hpc]
  | case6 hand toRet k hk0 hlen hAny1 hAny hfind =>
    obtain ⟨x, hx, hpx⟩ := List.any_eq_true.mp hAny
    have := List.find?_eq_none.mp hfind x hx
    simp_all
  | case7 hand toRet k hk0 hlen hAny1 hAny2 hAny c hfind ih =>
    rw [trimLoop, if_neg hk0, if_neg hlen, dif_neg hAny1, dif_neg hAny2, dif_pos hAny,
      hfind] at H
    have IH := ih H
    have hpc : isOnLand c = true := List.find?_some hfind
    have hlenE : (hand.eraseP isOnLand).length + 1 = hand.length := by
      obtain ⟨x, hx, hpx⟩ := List.any_eq_true.mp hAny
      exact List.length_eraseP_add_one hx hpx
    have hTe : (hand.eraseP isOnLand).countP isTarget = hand.countP isTarget :=
      countP_eraseP_disj (fun c h => not_isTarget_of_isOnLand h) hand
    obtain ⟨ihL, ihK, ihT, ihR⟩ := IH
    refine ⟨by simp at ihL ⊢; omega, ?_, by omega, ?_⟩
    · rcases ihK with h | h
      · exact Or.inl h
      · exact absurd h.1 hk0
    · rw [ihR, List.countP_append]
      simp [not_isTarget_of_isOnLand hpc]
  | case8 hand toRet k hk0 hlen hAny1 hAny2 hAny hfind =>
    obtain ⟨x, hx, hpx⟩ := List.any_eq_true.mp hAny
    have := List.find?_eq_none.mp hfind x hx
    simp_all
  | case9 hand toRet k hk0 hlen hAny1 hAny2 hAny3 =>
    rw [trimLoop, if_neg hk0, if_neg hlen, dif_neg hAny1, dif_neg hAny2, dif_neg hAny3] at H
    simp at H

theorem mulligan_resolve_inv {h2 d2 : List Card} {k : Nat} (hand deck : List Card)
    (H : mulligan_resolve hand deck = .ok (h2, d2, k)) :
    k ≤ 3 ∧
    (hand.length = 7 → h2.length + k = 7) ∧
    (hand.length = 7 → hand.countP isTarget = 1 → deck.countP isTarget = 0 →
      deck.length = 33 → d2.length = 33 + k) ∧
    (hand.countP isTarget = 1 → deck.countP isTarget = 0 →
      h2.countP isTarget = 1 ∧ d2.countP isTarget = 0) := by
  rw [mulligan_resolve] at H
  split at H
  · simp at H
  · rename_i hand1 deck1 k1 hm
    split at H
    · simp at H
    · rename_i hand2 toRet ht
      simp only [Except.ok.injEq, Prod.mk.injEq] at H
      obtain ⟨rfl, rfl, rfl⟩ := H
      obtain ⟨hK, hL, hT⟩ := mullLoop_inv hand deck 0 hm
      obtain ⟨tlen, tret, tT, tretT⟩ := trimLoop_inv hand1 [] k1 ht
      have hretlen : toRet.length = k1 := by
        rcases tret with h | h
        · exact h
        · rw [h.2]; simp [h.1]
      refine ⟨hK (by omega), ?_, ?_, ?_⟩
      · intro h7
        have := hL h7
        simp at tlen
        omega
      · intro h7 hTh hTd hd33
        obtain ⟨-, -, hdl⟩ := hT hTh hTd
        have := hdl h7 hd33
        simp [List.length_append, hretlen, this]
      · intro hTh hTd
        obtain ⟨h1T, d1T, -⟩ := hT hTh hTd
        refine ⟨by rw [tT, h1T], ?_⟩
        rw [List.countP_append, d1T, tretT]
        simp

/-! ### Turn Engine lemmas -/

theorem isLand_of_isOnLand {c : Card} (h : isOnLand c = true) : isLand c = true := by
  cases c <;> simp_all [isOnLand, isLand]

theorem isLand_of_isOffLand {c : Card} (h : isOffLand c = true) : isLand c = true := by
  cases c <;> simp_all [isOffLand, isLand]

theorem playFirst_step {p : Card → Bool} (hp : ∀ c, p c = true → isLand c = true)
    (hand board : List Card) : boardStep board (playFirst p hand board).2 := by
  rw [playFirst]
  rcases hfind : hand.find? p with - | c
  · exact Or.inl rfl
  · exact Or.inr ⟨c, hp c (List.find?_some hfind), rfl⟩

theorem landDrop_step (t : Target) (hand board : List Card) :
    boardStep board (landDrop t hand board).2 := by
  rw [landDrop]
  split
  · split
    · exact playFirst_step (fun c h => isLand_of_isOnLand h) hand board
    · split
      · exact playFirst_step (fun c h => isLand_of_isOffLand h) hand board
      · exact playFirst_step (fun c h => h) hand board
  · exact Or.inl rfl

theorem loopRun_chain (t : Target) (deck : List Card) :
    ∀ (hand board : List Card) (turn : Nat),
      List.Chain' boardStep (board :: (loopRun t deck hand board turn).1) := by
  induction deck with
  | nil => intro hand board turn; simp [loopRun]
  | cons c deck ih =>
    intro hand board turn
    simp only [loopRun]
    split
    · exact List.chain'_cons.mpr ⟨landDrop_step t (hand ++ [c]) board, List.chain'_singleton _⟩
    · exact List.chain'_cons.mpr ⟨landDrop_step t (hand ++ [c]) board,
        ih (landDrop t (hand ++ [c]) board).1 (landDrop t (hand ++ [c]) board).2 (turn + 1)⟩

theorem engineRun_chain (t : Target) (deck hand : List Card) :
    List.Chain' boardStep ([] :: (engineRun t deck hand).1) := by
  rw [engineRun.eq_def]
  match deck with
  | [] => simp
  | c :: deck =>
    dsimp only
    split
    · exact List.chain'_cons.mpr ⟨landDrop_step t hand [], List.chain'_singleton _⟩
    · exact List.chain'_cons.mpr ⟨landDrop_step t hand [],
        loopRun_chain t (c :: deck) (landDrop t hand []).1 (landDrop t hand []).2 2⟩

theorem chain_no_target {board : List Card} {bs : List (List Card)}
    (hc : List.Chain' boardStep (board :: bs)) (hb : board.countP isTarget = 0) :
    ∀ b ∈ bs, b.countP isTarget = 0 := by
  induction bs generalizing board with
  | nil => intro b hb; simp at hb
  | cons b bs ih =>
    obtain ⟨hstep, hrest⟩ := List.chain'_cons.mp hc
    have hbT : b.countP isTarget = 0 := by
      rcases hstep with rfl | ⟨c, hcL, rfl⟩
      · exact hb
      · rw [List.countP_append, hb]
        have : isTarget c = false := by cases c <;> simp_all [isLand, isTarget]
        simp [this]
    intro x hx
    rcases List.mem_cons.mp hx with rfl | hx
    · exact hbT
    · exact ih hrest hbT x hx

theorem loopRun_len (t : Target) (deck : List Card) :
    ∀ (hand board : List Card) (turn : Nat),
      (loopRun t deck hand board turn).1.length ≤ deck.length ∧
      ((loopRun t deck hand board turn).2 = none →
        (loopRun t deck hand board turn).1.length = deck.length) := by
  induction deck with
  | nil => intro hand board turn; simp [loopRun]
  | cons c deck ih =>
    intro hand board turn
    simp only [loopRun]
    split
    · simp
    · have IH := ih (landDrop t (hand ++ [c]) board).1 (landDrop t (hand ++ [c]) board).2
        (turn + 1)
      constructor
      · simp only [List.length_cons, List.length_cons]
        omega
      · intro hn
        simp only [List.length_cons]
        rw [IH.2 hn]

theorem loopRun_spec (t : Target) (deck : List Card) :
    ∀ (hand board : List Card) (turn u : Nat),
      (loopRun t deck hand board turn).2 = some u →
      1 ≤ (loopRun t deck hand board turn).1.length ∧
      u + 1 = turn + (loopRun t deck hand board turn).1.length ∧
      castable t ((loopRun t deck hand board turn).1.getD
        ((loopRun t deck hand board turn).1.length - 1) []) = true ∧
      ∀ i, i + 1 < (loopRun t deck hand board turn).1.length →
        castable t ((loopRun t deck hand board turn).1.getD i []) = false := by
  induction deck with
  | nil => intro hand board turn u h; simp [loopRun] at h
  | cons c deck ih =>
    intro hand board turn u h
    simp only [loopRun] at h ⊢
    split at h
    · rename_i hc
      simp only [Option.some.injEq] at h
      subst h
      rw [if_pos hc]
      refine ⟨by simp, by simp, by simpa using hc, ?_⟩
      intro i hi
      simp at hi
    · rename_i hc
      simp only at h
      have IH := ih (landDrop t (hand ++ [c]) board).1 (landDrop t (hand ++ [c]) board).2
        (turn + 1) u h
      rw [if_neg hc]
      obtain ⟨ih1, ih2, ih3, ih4⟩ := IH
      refine ⟨by simp, by simp only [List.length_cons]; omega, ?_, ?_⟩
      · simp only [List.length_cons]
        have hidx : (loopRun t deck (landDrop t (hand ++ [c]) board).1
            (landDrop t (hand ++ [c]) board).2 (turn + 1)).1.length + 1 - 1 =
            ((loopRun t deck (landDrop t (hand ++ [c]) board).1
            (landDrop t (hand ++ [c]) board).2 (turn + 1)).1.length - 1) + 1 := by omega
        rw [hidx, List.getD_cons_succ]
        exact ih3
      · intro i hi
        simp only [List.length_cons] at hi
        match i with
        | 0 =>
          simpa using eq_false_of_ne_true hc
        | i + 1 =>
          simp only [List.getD_cons_succ]
          exact ih4 i (by omega)

theorem engineRun_some_spec {t : Target} {deck hand : List Card} {bs : List (List Card)}
    {u : Nat} (H : engineRun t deck hand = (bs, some u)) :
    1 ≤ u ∧ bs.length = u ∧ castable t (bs.getD (u - 1) []) = true ∧
    (∀ i, i + 1 < u → castable t (bs.getD i []) = false) ∧
    u ≤ deck.length + 1 := by
  rw [engineRun.eq_def] at H
  match deck with
  | [] => simp at H
  | c :: deck =>
    dsimp only at H
    split at H
    · rename_i hc
      simp only [Prod.mk.injEq, Option.some.injEq] at H
      obtain ⟨rfl, rfl⟩ := H
      exact ⟨le_refl 1, rfl, by simpa using hc, fun i hi => by omega, by simp⟩
    · rename_i hc
      simp only [Prod.mk.injEq] at H
      obtain ⟨rfl, hu⟩ := H
      have hspec := loopRun_spec t (c :: deck) (landDrop t hand []).1
        (landDrop t hand []).2 2 u hu
      have hlen := loopRun_len t (c :: deck) (landDrop t hand []).1
        (landDrop t hand []).2 2
      obtain ⟨s1, s2, s3, s4⟩ := hspec
      have hcd : (c :: deck).length = deck.length + 1 := rfl
      have hloople := hlen.1
      refine ⟨by omega, by simp only [List.length_cons]; omega, ?_, ?_, ?_⟩
      · have : u - 1 = (loopRun t (c :: deck) (landDrop t hand []).1
            (landDrop t hand []).2 2).1.length - 1 + 1 := by omega
        rw [this, List.getD_cons_succ]
        exact s3
      · intro i hi
        match i with
        | 0 => simpa using eq_false_of_ne_true hc
        | i + 1 =>
          simp only [List.getD_cons_succ]
          exact s4 i (by omega)
      · simp only [List.length_cons]
        omega

theorem engineRun_len {t : Target} {deck hand : List Card} {bs : List (List Card)}
    {r : Option Nat} (H : engineRun t deck hand = (bs, r)) :
    bs.length ≤ deck.length + 1 ∧
    (r = none → (deck = [] ∧ bs = []) ∨ bs.length = deck.length + 1) := by
  rw [engineRun.eq_def] at H
  match deck with
  | [] =>
    simp only [Prod.mk.injEq] at H
    obtain ⟨rfl, rfl⟩ := H
    exact ⟨by simp, fun _ => Or.inl ⟨rfl, rfl⟩⟩
  | c :: deck =>
    dsimp only at H
    split at H
    · simp only [Prod.mk.injEq] at H
      obtain ⟨rfl, rfl⟩ := H
      exact ⟨by simp, by simp⟩
    · simp only [Prod.mk.injEq] at H
      obtain ⟨rfl, hu⟩ := H
      have hlen := loopRun_len t (c :: deck) (landDrop t hand []).1 (landDrop t hand []).2 2
      have hcd : (c :: deck).length = deck.length + 1 := rfl
      have hloople := hlen.1
      refine ⟨by simp only [List.length_cons]; omega, ?_⟩
      intro hn
      subst hn
      right
      simp only [List.length_cons]
      rw [hlen.2 hu, hcd]

/-! ### Deck Builder and aggregation lemmas -/

theorem deckCards_counts (a b : Nat) :
    (deckCards a b).length = a + b + 22 ∧
    (deckCards a b).countP isOnLand = a ∧
    (deckCards a b).countP isOffLand = b ∧
    (deckCards a b).countP isOther = 22 ∧
    (deckCards a b).countP isTarget = 0 := by
  unfold deckCards DECK_SIZE LAND_COUNT
  refine ⟨by simp; omega, ?_, ?_, ?_, ?_⟩ <;>
    simp [List.countP_append, countP_replicate, isOnLand, isOffLand, isOther, isTarget]

theorem mull_column (results : List TrialResult) :
    (results.map fun r => some ((r.mulligan_count : ℚ))).filterMap id =
    results.map fun r => (r.mulligan_count : ℚ) := by
  induction results with
  | nil => rfl
  | cons r rs ih => simp [ih]

theorem cast_column_filter (results : List TrialResult) :
    (results.map fun r => r.cast_turn.map fun n => (n : ℚ)).filterMap id =
    (results.filter fun r => r.cast_turn.isSome).map
      fun r => ((r.cast_turn.getD 0 : Nat) : ℚ) := by
  induction results with
  | nil => rfl
  | cons r rs ih =>
    rcases hc : r.cast_turn with - | n <;>
      simp [List.filter_cons, hc] at ih ⊢ <;> simp [hc, ih]

theorem mulligan_resolve_hand0w :
    mulligan_resolve hand0w deck0w = .ok (hand0w, deck0w, 0) := by
  simp +decide [mulligan_resolve, mullLoop, trimLoop, hand0w, deck0w]

/-! ### Claims -/

/-- C1 (counterexample): on a concrete trial state (opening hand of six
on-color lands plus the target card, 33-card remaining library) mulligan
resolution completes with `mulligan_count = 0` and the remaining library has
33 cards, not `38 + 0` as the claim states. -/
theorem C1_counterexample :
    mulligan_resolve hand0w deck0w = .ok (hand0w, deck0w, 0) ∧
    deck0w.length ≠ 38 + 0 :=
  ⟨mulligan_resolve_hand0w, by decide⟩

/-- C1 (amended): after mulligan resolution and the trim step complete with
`mulligan_count = k` on a standard trial state (7-card hand holding exactly
one target card, 33-card library holding none), `k ∈ {0,1,2,3}`, the kept
hand has exactly `7 - k` cards and the remaining library has exactly
`33 + k` cards (the spec's `38 + k` is off by five: the 39-card library
already lost the 6 drawn cards). -/
theorem C1_sizes_after_mulligan_and_trim (hand deck h2 d2 : List Card) (k : Nat)
    (hhand : hand.length = 7) (hT : hand.countP isTarget = 1)
    (hdT : deck.countP isTarget = 0) (hdlen : deck.length = 33)
    (H : mulligan_resolve hand deck = .ok (h2, d2, k)) :
    k ≤ 3 ∧ h2.length = 7 - k ∧ d2.length = 33 + k := by
  obtain ⟨hk, hl, hd, -⟩ := mulligan_resolve_inv hand deck H
  have := hl hhand
  exact ⟨hk, by omega, hd hhand hT hdT hdlen⟩

/-- C1 (witness): the amended statement evaluated on the concrete trial
state of the counterexample. -/
theorem C1_witness :
    0 ≤ 3 ∧ hand0w.length = 7 - 0 ∧ deck0w.length = 33 + 0 :=
  C1_sizes_after_mulligan_and_trim hand0w deck0w hand0w deck0w 0 (by decide) (by decide)
    (by decide) (by decide) mulligan_resolve_hand0w

/-- C2: if the Turn Engine returns cast turn `u`, then exactly `u` turns were
executed, the post-land-drop board of turn `u` satisfies the three-part cast
condition, and the post-land-drop board of every earlier executed turn does
not (`bs` lists the post-land-drop board of each executed turn in order). -/
theorem C2_cast_turn_first (t : Target) (deck hand : List Card) (bs : List (List Card))
    (u : Nat) (H : engineRun t deck hand = (bs, some u)) :
    1 ≤ u ∧ bs.length = u ∧ castable t (bs.getD (u - 1) []) = true ∧
    ∀ i, i + 1 < u → castable t (bs.getD i []) = false := by
  obtain ⟨ha, hb, hc, hd, -⟩ := engineRun_some_spec H
  exact ⟨ha, hb, hc, hd⟩

/-- C2 (witness): a one-land hand against target `1` with one on-color pip
casts on turn 1, and there is no earlier turn. -/
theorem C2_witness :
    1 ≤ 1 ∧ ([[Card.land true]] : List (List Card)).length = 1 ∧
    castable t1w ([[Card.land true]].getD (1 - 1) []) = true ∧
    ∀ i, i + 1 < 1 → castable t1w ([[Card.land true]].getD i []) = false :=
  C2_cast_turn_first t1w [Card.other] [Card.land true] [[Card.land true]] 1 (by decide)

/-- C3: whenever the Deck Builder accepts (returns a library), the library
has exactly 39 cards: `on_color_land_count` on-color lands,
`17 - on_color_land_count` off-color lands, 22 filler cards, and no target
card.  The hypotheses state that the target card is valid (pips as produced
by `get_target_card`) and that the shuffle only permutes. -/
theorem C3_deck_composition (t : Target) (a : Int) (shuffle : List Card → List Card)
    (d : List Card) (h1 : 1 ≤ t.on_color_pips) (h2 : 0 ≤ t.off_color_pips)
    (hperm : ∀ l, (shuffle l).Perm l)
    (H : get_deck t a shuffle = .ok d) :
    d.length = 39 ∧ ((d.countP isOnLand : Int) = a) ∧
    ((d.countP isOffLand : Int) = (LAND_COUNT : Int) - a) ∧
    d.countP isOther = 22 ∧ d.countP isTarget = 0 := by
  rw [get_deck] at H
  split at H
  · simp at H
  · split at H
    · simp at H
    · rename_i hc1 hc2
      rw [get_land_split] at H
      split at H
      · simp at H
      · rename_i onc offc hc3
        have hL : (LAND_COUNT : Int) = 17 := rfl
        have ha1 : 1 ≤ a := by omega
        have ha17 : a ≤ 17 := by omega
        rw [if_neg (by omega : ¬a < 1)] at hc3
        simp only [Except.ok.injEq, Prod.mk.injEq] at hc3
        obtain ⟨rfl, rfl⟩ := hc3
        dsimp only at H
        split at H
        · simp at H
        · rename_i hsize
          simp only [Except.ok.injEq] at H
          subst H
          have hA : ((a.toNat : Int)) = a := Int.toNat_of_nonneg (by omega)
          have hB : ((((LAND_COUNT : Int) - a).toNat : Int)) = (LAND_COUNT : Int) - a :=
            Int.toNat_of_nonneg (by omega)
          have hp := hperm (deckCards a.toNat ((LAND_COUNT : Int) - a).toNat)
          obtain ⟨c1, c2, c3, c4, c5⟩ :=
            deckCards_counts a.toNat ((LAND_COUNT : Int) - a).toNat
          refine ⟨?_, ?_, ?_, ?_, ?_⟩
          · rw [hp.length_eq, c1]; omega
          · rw [hp.countP_eq isOnLand, c2]; omega
          · rw [hp.countP_eq isOffLand, c3]; omega
          · rw [hp.countP_eq isOther, c4]
          · rw [hp.countP_eq isTarget, c5]

/-- C3 (witness): a mono-color deck request (17 on-color lands, target with a
single on-color pip, identity shuffle) evaluated concretely. -/
theorem C3_witness :
    (deckCards 17 0).length = 39 ∧ (((deckCards 17 0).countP isOnLand : Int) = 17) ∧
    (((deckCards 17 0).countP isOffLand : Int) = (LAND_COUNT : Int) - 17) ∧
    (deckCards 17 0).countP isOther = 22 ∧ (deckCards 17 0).countP isTarget = 0 :=
  C3_deck_composition t1w 17 id (deckCards 17 0) (by decide) (by decide)
    (fun l => List.Perm.refl l) (by rfl)

/-- C4: for a valid target card, the Deck Builder raises a configuration
error exactly when `on_color_land_count < on_color_pips` or
`17 - on_color_land_count < off_color_pips`, and otherwise returns the
shuffled library (the error is raised by the checks at the top of
`get_deck`, before the deck list is built). -/
theorem C4_deck_feasibility_check (t : Target) (a : Int) (shuffle : List Card → List Card)
    (h1 : 1 ≤ t.on_color_pips) (h2 : 0 ≤ t.off_color_pips) :
    ((a < t.on_color_pips ∨ (LAND_COUNT : Int) - a < t.off_color_pips) →
      get_deck t a shuffle = .error .config) ∧
    (¬(a < t.on_color_pips ∨ (LAND_COUNT : Int) - a < t.off_color_pips) →
      get_deck t a shuffle =
        .ok (shuffle (deckCards a.toNat ((LAND_COUNT : Int) - a).toNat))) := by
  have hL : (LAND_COUNT : Int) = 17 := rfl
  constructor
  · intro h
    rw [get_deck]
    by_cases hfirst : a < t.on_color_pips
    · rw [if_pos hfirst]
    · rw [if_neg hfirst, if_pos (by tauto)]
  · intro h
    push_neg at h
    obtain ⟨hna, hnb⟩ := h
    have ha1 : 1 ≤ a := by omega
    have ha17 : a ≤ 17 := by omega
    rw [get_deck, if_neg (by omega), if_neg (by omega), get_land_split,
      if_neg (by omega)]
    dsimp only
    rw [if_neg ?_]
    obtain ⟨c1, -⟩ := deckCards_counts a.toNat ((LAND_COUNT : Int) - a).toNat
    rw [c1]
    have hA : ((a.toNat : Int)) = a := Int.toNat_of_nonneg (by omega)
    have hB : ((((LAND_COUNT : Int) - a).toNat : Int)) = (LAND_COUNT : Int) - a :=
      Int.toNat_of_nonneg (by omega)
    show ¬(a.toNat + ((LAND_COUNT : Int) - a).toNat + 22 ≠ DECK_SIZE - 1)
    unfold DECK_SIZE
    omega

/-- C4 (witness): requesting 0 on-color lands for a target with one on-color
pip is rejected as a configuration error. -/
theorem C4_witness : get_deck t1w 0 id = .error .config :=
  (C4_deck_feasibility_check t1w 0 id (by decide) (by decide)).1 (Or.inl (by decide))

/-- C5: however the mulligan loop goes, the resolved mulligan count is at
most 3, and for a 7-card opening hand the kept hand has at least 4 cards. -/
theorem C5_mulligan_floor (hand deck h2 d2 : List Card) (k : Nat)
    (H : mulligan_resolve hand deck = .ok (h2, d2, k)) :
    k ≤ 3 ∧ (hand.length = 7 → 4 ≤ h2.length) := by
  obtain ⟨hk, hl, -, -⟩ := mulligan_resolve_inv hand deck H
  refine ⟨hk, fun h7 => ?_⟩
  have := hl h7
  omega

/-- C5 (witness): the concrete trial state keeps all 7 cards after 0
mulligans. -/
theorem C5_witness :
    0 ≤ 3 ∧ (hand0w.length = 7 → 4 ≤ hand0w.length) :=
  C5_mulligan_floor hand0w deck0w hand0w deck0w 0 mulligan_resolve_hand0w

/-- C6: across the Turn Engine's executed turns the board grows only by
appending at most one land per turn, so board length and the on-color and
off-color counts are non-decreasing from each turn to the next (the chain
starts at the empty pre-game board). -/
theorem C6_board_append_only (t : Target) (deck hand : List Card) (bs : List (List Card))
    (r : Option Nat) (H : engineRun t deck hand = (bs, r)) :
    List.Chain' boardStep ([] :: bs) ∧
    List.Chain' (fun b b' => b.length ≤ b'.length ∧ b'.length ≤ b.length + 1 ∧
      b.countP onColorFlag ≤ b'.countP onColorFlag ∧
      b.countP (fun c => !onColorFlag c) ≤ b'.countP (fun c => !onColorFlag c))
      ([] :: bs) := by
  have hch := engineRun_chain t deck hand
  rw [H] at hch
  refine ⟨hch, ?_⟩
  refine List.Chain'.imp ?_ hch
  intro b b' hstep
  rcases hstep with rfl | ⟨c, hc, rfl⟩
  · exact ⟨le_refl _, by omega, le_refl _, le_refl _⟩
  · refine ⟨by simp, by simp, ?_, ?_⟩ <;> simp [List.countP_append]

/-- C6 (witness): the one-turn run of the C2 witness satisfies both chains. -/
theorem C6_witness :
    List.Chain' boardStep ([] :: [[Card.land true]]) ∧
    List.Chain' (fun b b' => b.length ≤ b'.length ∧ b'.length ≤ b.length + 1 ∧
      b.countP onColorFlag ≤ b'.countP onColorFlag ∧
      b.countP (fun c => !onColorFlag c) ≤ b'.countP (fun c => !onColorFlag c))
      ([] :: [[Card.land true]]) :=
  C6_board_append_only t1w [Card.other] [Card.land true] [[Card.land true]] (some 1)
    (by decide)

/-- C7: the Turn Engine executes at most `library size + 1` turns; a
successful exit returns the turn index it stopped at (which is within the
bound), and an unsuccessful exit happens only with the library exhausted:
either immediately (empty library before turn 1) or after drawing every
library card. -/
theorem C7_termination_bound (t : Target) (deck hand : List Card) (bs : List (List Card))
    (r : Option Nat) (H : engineRun t deck hand = (bs, r)) :
    bs.length ≤ deck.length + 1 ∧
    (∀ u, r = some u → 1 ≤ u ∧ u = bs.length ∧ u ≤ deck.length + 1) ∧
    (r = none → (deck = [] ∧ bs = []) ∨ bs.length = deck.length + 1) := by
  obtain ⟨hb, hn⟩ := engineRun_len H
  refine ⟨hb, ?_, hn⟩
  intro u hu
  subst hu
  obtain ⟨s1, s2, -, -, s5⟩ := engineRun_some_spec H
  exact ⟨s1, s2.symm, s5⟩

/-- C7 (witness): the one-turn run of the C2 witness meets the bound. -/
theorem C7_witness :
    ([[Card.land true]] : List (List Card)).length ≤ [Card.other].length + 1 ∧
    (∀ u, (some 1 : Option Nat) = some u →
      1 ≤ u ∧ u = ([[Card.land true]] : List (List Card)).length ∧
      u ≤ [Card.other].length + 1) ∧
    ((some 1 : Option Nat) = none →
      ([Card.other] = ([] : List Card) ∧ [[Card.land true]] = ([] : List (List Card))) ∨
      ([[Card.land true]] : List (List Card)).length = [Card.other].length + 1) :=
  C7_termination_bound t1w [Card.other] [Card.land true] [[Card.land true]] (some 1)
    (by decide)

/-- C8: in the aggregate built from the non-discarded trial results,
`average_mulligan_count` is the mean of `mulligan_count` over all of them,
while `average_cast_turn` is the mean of `cast_turn` over only the trials in
which the card was cast (and is missing when no trial cast it). -/
theorem C8_aggregate_means (mv onp offp a : Int) (iters : Nat) (results : List TrialResult)
    (agg : AggregateResult)
    (H : run_simulations_aggregate mv onp offp a iters results = some agg) :
    agg.average_mulligan_count =
      some ((results.map fun r => (r.mulligan_count : ℚ)).sum / (results.length : ℚ)) ∧
    ((results.filter fun r => r.cast_turn.isSome) = [] → agg.average_cast_turn = none) ∧
    ((results.filter fun r => r.cast_turn.isSome) ≠ [] →
      agg.average_cast_turn = some
        (((results.filter fun r => r.cast_turn.isSome).map
            fun r => ((r.cast_turn.getD 0 : Nat) : ℚ)).sum /
          (((results.filter fun r => r.cast_turn.isSome).length : ℚ)))) := by
  rw [run_simulations_aggregate] at H
  split at H
  · rename_i hpos
    simp only [Option.some.injEq] at H
    subst H
    refine ⟨?_, ?_, ?_⟩
    · simp only [seriesMean, mull_column, List.length_map]
      rw [if_neg (by omega)]
    · intro hemp
      simp only [seriesMean, cast_column_filter, hemp]
      simp
    · intro hne
      simp only [seriesMean, cast_column_filter]
      rw [if_neg (by simp [hne])]
      simp
  · simp at H

/-- C8 (witness): for the two concrete trials of `resultsw` (one cast on
turn 3, one never cast after 2 mulligans) the aggregate has cast-turn mean 3
over the single casting trial and mulligan mean 1 over both. -/
theorem C8_witness :
    aggw.average_mulligan_count =
      some ((resultsw.map fun r => (r.mulligan_count : ℚ)).sum / (resultsw.length : ℚ)) ∧
    ((resultsw.filter fun r => r.cast_turn.isSome) = [] → aggw.average_cast_turn = none) ∧
    ((resultsw.filter fun r => r.cast_turn.isSome) ≠ [] →
      aggw.average_cast_turn = some
        (((resultsw.filter fun r => r.cast_turn.isSome).map
            fun r => ((r.cast_turn.getD 0 : Nat) : ℚ)).sum /
          (((resultsw.filter fun r => r.cast_turn.isSome).length : ℚ)))) :=
  C8_aggregate_means 1 1 0 17 2 resultsw aggw (by
    norm_num [run_simulations_aggregate, seriesMean, resultsw, aggw, LAND_COUNT,
      List.filterMap_cons, List.filterMap_nil, List.sum_cons, List.sum_nil])

/-- C9: calling `simulate` with `on_color_pips = 0` always returns a
configuration error (raised by `get_target_card`, before any deck is built
or trial played), for every other parameter value and every shuffle. -/
theorem C9_zero_on_color_pips_rejected (mana_value off_color_pips on_color_land_count : Int)
    (shuffle : List Card → List Card) :
    simulate mana_value 0 off_color_pips on_color_land_count shuffle = .error .config := by
  rw [simulate]
  by_cases h1 : mana_value < 1
  · rw [if_pos h1]
  · rw [if_neg h1, if_neg (by omega : ¬(0 : Int) < 0)]
    by_cases h3 : off_color_pips < 0
    · rw [if_pos h3]
    · rw [if_neg h3]
      by_cases h4 : on_color_land_count < 1
      · rw [if_pos h4]
      · rw [if_neg h4]
        by_cases h5 : on_color_land_count > (LAND_COUNT : Int)
        · rw [if_pos h5]
        · rw [if_neg h5]
          dsimp only
          by_cases h6 : mana_value - 0 - off_color_pips < 0
          · rw [if_pos h6]
          · rw [if_neg h6, if_neg (by omega :
              ¬mana_value - 0 - off_color_pips + 0 + off_color_pips ≠ mana_value)]
            rw [get_target_card, if_neg h1, if_pos (by norm_num : (0 : Int) < 1)]

/-- C10: the target card is never returned to the library: if the trial state
holds exactly one target card in hand and none in the library, then after
mulligan resolution the kept hand still holds exactly one and the library
none, and no board produced by the Turn Engine ever contains a target card. -/
theorem C10_target_stays_in_hand (hand deck h2 d2 : List Card) (k : Nat) (t : Target)
    (bs : List (List Card)) (r : Option Nat)
    (hT : hand.countP isTarget = 1) (hdT : deck.countP isTarget = 0)
    (H : mulligan_resolve hand deck = .ok (h2, d2, k))
    (He : engineRun t d2 h2 = (bs, r)) :
    h2.countP isTarget = 1 ∧ d2.countP isTarget = 0 ∧
    ∀ b ∈ bs, b.countP isTarget = 0 := by
  obtain ⟨-, -, -, ht⟩ := mulligan_resolve_inv hand deck H
  obtain ⟨hh, hd⟩ := ht hT hdT
  refine ⟨hh, hd, ?_⟩
  have hch := engineRun_chain t d2 h2
  rw [He] at hch
  exact chain_no_target hch (by simp)

/-- C10 (witness): the concrete trial state; the engine's only board is the
single played land. -/
theorem C10_witness :
    hand0w.countP isTarget = 1 ∧ deck0w.countP isTarget = 0 ∧
    ∀ b ∈ [[Card.land true]], b.countP isTarget = 0 :=
  C10_target_stays_in_hand hand0w deck0w hand0w deck0w 0 t1w [[Card.land true]] (some 1)
    (by decide) (by decide) mulligan_resolve_hand0w (by decide)

end MtgSim
